import Mathlib

/-!
Verification of the AgentBrowser core against its design specification.

The development shallowly embeds the relevant parts of the implementation:

* `Tabs` — the tab/window state manager (`BrowserManager` in
  `src/browser.ts`): `launch`, `newTab`, `newWindow`, `closeTab`.
  Playwright pages and browser contexts are modelled by numeric
  identities; the engine calls (`context.newPage()`, `page.close()`)
  themselves have no observable effect on the manager state beyond the
  bookkeeping embedded here.
* `Snapshot` — the ref snapshot engine (`extension/snapshot-browser.js`):
  traversal, ref assignment, the role+name duplicate tracker, the
  `nth` post-pass, `resolveRef` and `parseRef`.
* `Framing` — the 4-byte little-endian length-prefixed wire codec:
  the incremental socket decoder (`startIPCServer` data handler) and the
  one-shot stdin decoder (`readMessage`) of the native host.
* `Bridge` — the request/response correlators: `handleExtensionResponse`
  (native host, by-id) and `NativeHostConnection.handleHostResponse`
  (MCP client, first-pending).
* `Protocol` — `parseCommand` (zod discriminated union over `action`)
  and the `executeCommand` dispatch skeleton with its unknown-action
  default.

Machine integers are modelled as `Nat` with explicit bounds where the
JavaScript code is width-sensitive; byte strings are `List Nat`;
fallible operations return `Except`/`Option`.
-/

/-- A single quote character, used when rendering validator messages. -/
def squote : String := String.mk [Char.ofNat 39]

namespace Tabs

/-- One open page (tab). `pid` is the identity of the underlying
Playwright page object; `ctx` is the identity of the browsing context
that created it (cookies/storage are shared exactly within a context). -/
structure TabPage where
  pid : Nat
  ctx : Nat
deriving Repr, DecidableEq

/-- State of `BrowserManager` (src/browser.ts): the browser handle,
the list of contexts in creation order, the ordered page list, and the
active page index. `nextId` is a fresh-identity counter standing in for
object allocation. -/
structure BrowserState where
  launched : Bool
  contexts : List Nat
  pages : List TabPage
  activePageIndex : Nat
  nextId : Nat
deriving Repr, DecidableEq

/-- BrowserManager.launch: closes any previous browser, creates one
context and one initial page in it, and sets the active index to 0. -/
def launch (s : BrowserState) : BrowserState :=
  { launched := true
    contexts := [s.nextId]
    pages := [⟨s.nextId + 1, s.nextId⟩]
    activePageIndex := 0
    nextId := s.nextId + 2 }

/-- BrowserManager.newTab: requires a launched browser with at least one
context, creates the page in the FIRST context (`this.contexts[0]`),
appends it, and makes it active. Returns (state, index, total). -/
def newTab (s : BrowserState) : Except String (BrowserState × Nat × Nat) :=
  match s.launched, s.contexts with
  | false, _ => Except.error "Browser not launched"
  | true, [] => Except.error "Browser not launched"
  | true, c0 :: _ =>
    let page : TabPage := ⟨s.nextId, c0⟩
    let pages := s.pages ++ [page]
    Except.ok
      ({ s with pages := pages, activePageIndex := pages.length - 1, nextId := s.nextId + 1 },
       pages.length - 1, pages.length)

/-- BrowserManager.newWindow: requires a launched browser, creates a
fresh isolated context, creates a page inside it, appends both, and
makes the new page active. Returns (state, index, total). -/
def newWindow (s : BrowserState) : Except String (BrowserState × Nat × Nat) :=
  match s.launched with
  | false => Except.error "Browser not launched"
  | true =>
    let ctx := s.nextId
    let page : TabPage := ⟨s.nextId + 1, ctx⟩
    let pages := s.pages ++ [page]
    Except.ok
      ({ s with contexts := s.contexts ++ [ctx], pages := pages,
                activePageIndex := pages.length - 1, nextId := s.nextId + 2 },
       pages.length - 1, pages.length)

/-- BrowserManager.closeTab. The target defaults to the active index.
Checks, in source order: bounds, then sole-remaining-tab; only then is
the page list mutated and the active index adjusted. The returned state
is the receiver state after the call (unchanged when an error is
thrown, since both throws precede any mutation). The result carries
(closed index, remaining count). The negative-index half of the bounds
check cannot fire here because indices are `Nat` (the command schema
already requires a nonnegative index). -/
def closeTab (s : BrowserState) (idx : Option Nat) :
    BrowserState × Except String (Nat × Nat) :=
  let target := idx.getD s.activePageIndex
  if target ≥ s.pages.length then
    (s, Except.error ("Invalid tab index: " ++ toString target))
  else if s.pages.length = 1 then
    (s, Except.error "Cannot close the last tab. Use \"close\" to close the browser.")
  else
    let pages := s.pages.eraseIdx target
    let active :=
      if s.activePageIndex ≥ pages.length then pages.length - 1
      else if s.activePageIndex > target then s.activePageIndex - 1
      else s.activePageIndex
    ({ s with pages := pages, activePageIndex := active }, Except.ok (target, pages.length))

/-- The page currently active, when the index is in bounds. -/
def activePage (s : BrowserState) : Option TabPage :=
  s.pages.get? s.activePageIndex

end Tabs

namespace Snapshot

/-- Test whether a character list matches the regular expression
e[0-9]+ used by parseRef for bare ref tokens. -/
def refTokenChars : List Char → Bool
  | 'e' :: rest => !rest.isEmpty && rest.all Char.isDigit
  | _ => false

/-- parseRef (extension/snapshot-browser.js): strip a leading `@`, else
strip a leading `ref=`, else accept a bare token matching e[0-9]+, else
reject. The two string-slicing branches are realized by pattern
matching on the character list. -/
def parseRefChars : List Char → Option (List Char)
  | '@' :: rest => some rest
  | 'r' :: 'e' :: 'f' :: '=' :: rest => some rest
  | cs => if refTokenChars cs then some cs else none

/-- parseRef on strings, via the character-list worker. -/
def parseRef (arg : String) : Option String :=
  (parseRefChars arg.data).map (fun cs => String.mk cs)

end Snapshot

example : Snapshot.parseRef "@e3" = some "e3" := by decide
example : Snapshot.parseRef "ref=e3" = some "e3" := by decide
example : Snapshot.parseRef "e3" = some "e3" := by decide
example : Snapshot.parseRef "bogus" = none := by decide
example : Snapshot.parseRef "@bogus" = some "bogus" := by decide
example : Snapshot.parseRef "ref=xyz" = some "xyz" := by decide
example : Snapshot.parseRef "e" = none := by decide

namespace Tabs

/-- C7: with a single remaining tab, closeTab rejects (the in-bounds
invocations with the addressing message pointing at session close) and
leaves the state untouched. -/
theorem closeTab_sole_tab_rejected (s : BrowserState)
    (h1 : s.pages.length = 1) (h2 : s.activePageIndex = 0) :
    (closeTab s none).1 = s ∧
    (closeTab s none).2 =
      Except.error "Cannot close the last tab. Use \"close\" to close the browser." ∧
    (closeTab s (some 0)).2 =
      Except.error "Cannot close the last tab. Use \"close\" to close the browser." ∧
    ∀ idx : Option Nat, (closeTab s idx).1 = s ∧ ∀ r, (closeTab s idx).2 ≠ Except.ok r := by
  refine ⟨?_, ?_, ?_, ?_⟩
  · simp [closeTab, h1, h2]
  · simp [closeTab, h1, h2]
  · simp [closeTab, h1, h2]
  · intro idx
    match idx with
    | none => simp [closeTab, h1, h2]
    | some 0 => simp [closeTab, h1, h2]
    | some (k+1) => simp [closeTab, h1, h2]

theorem closeTab_sole_tab_rejected_witness :
    let s : BrowserState :=
      { launched := true, contexts := [0], pages := [⟨1, 0⟩],
        activePageIndex := 0, nextId := 2 }
    (closeTab s none).1 = s ∧
    (closeTab s none).2 =
      Except.error "Cannot close the last tab. Use \"close\" to close the browser." ∧
    (closeTab s (some 0)).2 =
      Except.error "Cannot close the last tab. Use \"close\" to close the browser." ∧
    ∀ idx : Option Nat, (closeTab s idx).1 = s ∧ ∀ r, (closeTab s idx).2 ≠ Except.ok r :=
  closeTab_sole_tab_rejected _ (by decide) (by decide)

end Tabs

namespace Tabs

/-- C8: a successful closeTab leaves the active index strictly inside
the shrunken list, and the resulting active tab is deterministic:
closing a tab strictly after the active one leaves the same tab active
at the same index; closing one strictly before it decrements the index
so the same tab stays active; closing the active tab itself promotes
the tab that slides into its index, or re-clamps to the new last index
when the active tab was the last one. -/
theorem closeTab_reclamps_deterministic (s : BrowserState) (idx : Option Nat)
    (hwf : s.activePageIndex < s.pages.length)
    (s2 : BrowserState) (tgt rem : Nat)
    (h : closeTab s idx = (s2, Except.ok (tgt, rem))) :
    s2.activePageIndex < s2.pages.length ∧
    s2.pages.length = s.pages.length - 1 ∧
    (s.activePageIndex < tgt →
       s2.activePageIndex = s.activePageIndex ∧
       s2.pages.get? s2.activePageIndex = s.pages.get? s.activePageIndex) ∧
    (tgt < s.activePageIndex →
       s2.activePageIndex = s.activePageIndex - 1 ∧
       s2.pages.get? s2.activePageIndex = s.pages.get? s.activePageIndex) ∧
    (s.activePageIndex = tgt → tgt + 1 < s.pages.length →
       s2.activePageIndex = tgt ∧
       s2.pages.get? s2.activePageIndex = s.pages.get? (tgt + 1)) ∧
    (s.activePageIndex = tgt → tgt + 1 = s.pages.length →
       s2.activePageIndex = tgt - 1 ∧
       s2.pages.get? s2.activePageIndex = s.pages.get? (tgt - 1)) := by
  unfold closeTab at h
  simp only [] at h
  split at h
  · exact absurd (congrArg Prod.snd h) (by simp)
  · split at h
    · exact absurd (congrArg Prod.snd h) (by simp)
    · rename_i hbound hlen
      simp only [Prod.mk.injEq, Except.ok.injEq] at h
      obtain ⟨hs2, htgt, -⟩ := h
      have htgt2 : tgt = idx.getD s.activePageIndex := htgt.symm
      rw [← htgt2] at hbound hs2
      have htlt : tgt < s.pages.length := by omega
      have hlen2 : (s.pages.eraseIdx tgt).length = s.pages.length - 1 :=
        List.length_eraseIdx_of_lt htlt
      have hge2 : 2 ≤ s.pages.length := by omega
      have hpages : s2.pages = s.pages.eraseIdx tgt := by rw [← hs2]
      have hact : s2.activePageIndex =
          (if s.activePageIndex ≥ (s.pages.eraseIdx tgt).length then
             (s.pages.eraseIdx tgt).length - 1
           else if s.activePageIndex > tgt then s.activePageIndex - 1
           else s.activePageIndex) := by rw [← hs2]
      have herase : s.pages.eraseIdx tgt = s.pages.take tgt ++ s.pages.drop (tgt + 1) :=
        List.eraseIdx_eq_take_drop_succ s.pages tgt
      have hktake : (s.pages.take tgt).length = tgt :=
        List.length_take_of_le (Nat.le_of_lt htlt)
      refine ⟨?_, ?_, ?_, ?_, ?_, ?_⟩
      · rw [hpages, hlen2, hact, hlen2]
        split
        all_goals try split
        all_goals omega
      · rw [hpages, hlen2]
      · intro hlt
        have ha : s2.activePageIndex = s.activePageIndex := by
          rw [hact, hlen2]
          split
          all_goals try split
          all_goals omega
        refine ⟨ha, ?_⟩
        rw [ha, hpages, herase]
        rw [List.get?_append (by omega : s.activePageIndex < (s.pages.take tgt).length)]
        exact List.get?_take (by omega)
      · intro hgt
        have ha : s2.activePageIndex = s.activePageIndex - 1 := by
          rw [hact, hlen2]
          split <;> omega
        refine ⟨ha, ?_⟩
        rw [ha, hpages, herase]
        rw [List.get?_append_right (by omega : (s.pages.take tgt).length ≤ s.activePageIndex - 1)]
        rw [List.get?_drop]
        congr 1
        omega
      · intro heq hlast
        have ha : s2.activePageIndex = tgt := by
          rw [hact, hlen2]
          split
          all_goals try split
          all_goals omega
        refine ⟨ha, ?_⟩
        rw [ha, hpages, herase]
        rw [List.get?_append_right (by omega : (s.pages.take tgt).length ≤ tgt)]
        rw [List.get?_drop]
        congr 1
        omega
      · intro heq hlast
        have ha : s2.activePageIndex = tgt - 1 := by
          rw [hact, hlen2]
          split
          all_goals try split
          all_goals omega
        refine ⟨ha, ?_⟩
        rw [ha, hpages, herase]
        rw [List.get?_append (by omega : tgt - 1 < (s.pages.take tgt).length)]
        exact List.get?_take (by omega)

/-- Concrete instantiation of `closeTab_reclamps_deterministic`: closing
the middle tab of three while the last is active decrements the active
index and keeps the same page active. -/
theorem closeTab_reclamps_deterministic_witness :
    let s : BrowserState :=
      { launched := true, contexts := [0], pages := [⟨1, 0⟩, ⟨2, 0⟩, ⟨3, 0⟩],
        activePageIndex := 2, nextId := 4 }
    ∃ s2, closeTab s (some 1) = (s2, Except.ok (1, 2)) ∧
      (s2.activePageIndex < s2.pages.length ∧
       s2.activePageIndex = 1 ∧
       s2.pages.get? s2.activePageIndex = s.pages.get? 2) := by
  intro s
  refine ⟨{ s with pages := [⟨1, 0⟩, ⟨3, 0⟩], activePageIndex := 1 }, rfl, ?_⟩
  have h := closeTab_reclamps_deterministic s (some 1) (by decide) _ 1 2 rfl
  exact ⟨h.1, (h.2.2.2.1 (by decide)).1, (h.2.2.2.1 (by decide)).2⟩

end Tabs

namespace Tabs

/-- C10: newTab always places the created page in the FIRST browsing
context and makes it active; in particular, right after newWindow has
created a second context and made its window active, a newTab call
creates its page in the original first context — not in the context of
the currently active window — and the new tab becomes active at index
(number of tabs - 1). -/
theorem newTab_first_context_and_activates (s : BrowserState) (c0 : Nat) (rest : List Nat)
    (hl : s.launched = true) (hc : s.contexts = c0 :: rest) (hfresh : c0 < s.nextId) :
    (∀ (t : BrowserState) (rest2 : List Nat), t.launched = true → t.contexts = c0 :: rest2 →
       ∃ t2, newTab t = Except.ok (t2, t.pages.length, t.pages.length + 1) ∧
         t2.pages = t.pages ++ [⟨t.nextId, c0⟩] ∧
         t2.activePageIndex = t2.pages.length - 1 ∧
         activePage t2 = some ⟨t.nextId, c0⟩) ∧
    (∃ s1 s2,
       newWindow s = Except.ok (s1, s.pages.length, s.pages.length + 1) ∧
       activePage s1 = some ⟨s.nextId + 1, s.nextId⟩ ∧
       s.nextId ≠ c0 ∧
       newTab s1 = Except.ok (s2, s1.pages.length, s1.pages.length + 1) ∧
       activePage s2 = some ⟨s1.nextId, c0⟩ ∧
       s2.activePageIndex = s2.pages.length - 1) := by
  have hgen : ∀ (t : BrowserState) (rest2 : List Nat), t.launched = true → t.contexts = c0 :: rest2 →
      ∃ t2, newTab t = Except.ok (t2, t.pages.length, t.pages.length + 1) ∧
        t2.pages = t.pages ++ [⟨t.nextId, c0⟩] ∧
        t2.activePageIndex = t2.pages.length - 1 ∧
        activePage t2 = some ⟨t.nextId, c0⟩ := by
    intro t rest2 htl htc
    refine ⟨{ t with pages := t.pages ++ [TabPage.mk t.nextId c0], activePageIndex := (t.pages ++ [TabPage.mk t.nextId c0]).length - 1, nextId := t.nextId + 1 }, ?_, rfl, rfl, ?_⟩
    · simp only [newTab, htl, htc]
      simp
    · unfold activePage
      simp only []
      simp [List.get?_concat_length]
  refine ⟨hgen, ?_⟩
  have hs1 : newWindow s = Except.ok
      ((BrowserState.mk s.launched (s.contexts ++ [s.nextId]) (s.pages ++ [TabPage.mk (s.nextId + 1) s.nextId]) ((s.pages ++ [TabPage.mk (s.nextId + 1) s.nextId]).length - 1) (s.nextId + 2)),
       s.pages.length, s.pages.length + 1) := by
    simp only [newWindow, hl]
    simp
  have hctx1 : ((BrowserState.mk s.launched (s.contexts ++ [s.nextId]) (s.pages ++ [TabPage.mk (s.nextId + 1) s.nextId]) ((s.pages ++ [TabPage.mk (s.nextId + 1) s.nextId]).length - 1) (s.nextId + 2))).contexts = c0 :: (rest ++ [s.nextId]) := by
    simp [hc]
  obtain ⟨s2, hnt, hp2, ha2, hap2⟩ :=
    hgen (BrowserState.mk s.launched (s.contexts ++ [s.nextId]) (s.pages ++ [TabPage.mk (s.nextId + 1) s.nextId]) ((s.pages ++ [TabPage.mk (s.nextId + 1) s.nextId]).length - 1) (s.nextId + 2)) (rest ++ [s.nextId]) hl hctx1
  refine ⟨(BrowserState.mk s.launched (s.contexts ++ [s.nextId]) (s.pages ++ [TabPage.mk (s.nextId + 1) s.nextId]) ((s.pages ++ [TabPage.mk (s.nextId + 1) s.nextId]).length - 1) (s.nextId + 2)), s2, hs1, ?_, by omega, hnt, hap2, ha2⟩
  unfold activePage
  simp [List.get?_concat_length]

/-- Concrete instantiation of `newTab_first_context_and_activates`:
launch, window_new, tab_new from a fresh state. -/
theorem newTab_first_context_and_activates_witness :
    let s := launch { launched := false, contexts := [], pages := [],
                      activePageIndex := 0, nextId := 0 }
    ∃ s1 s2,
      newWindow s = Except.ok (s1, s.pages.length, s.pages.length + 1) ∧
      activePage s1 = some ⟨s.nextId + 1, s.nextId⟩ ∧
      s.nextId ≠ 0 ∧
      newTab s1 = Except.ok (s2, s1.pages.length, s1.pages.length + 1) ∧
      activePage s2 = some ⟨s1.nextId, 0⟩ ∧
      s2.activePageIndex = s2.pages.length - 1 :=
  (newTab_first_context_and_activates _ 0 [] rfl rfl (by decide)).2

end Tabs

namespace Snapshot

/-- C5 counterexample: parseRef does not reject inputs outside the
three documented forms. A leading `@` (or `ref=`) is stripped with no
validation of the remainder, so parseRef accepts tokens that are not
of the shape eN and returns them verbatim instead of none. -/
theorem parseRef_at_bogus_counterexample :
    parseRef "@bogus" = some "bogus" ∧
    parseRef "ref=bogus" = some "bogus" ∧
    parseRef "@bogus" ≠ none := by
  refine ⟨by decide, by decide, by decide⟩

/-- C5 amended: parseRef strips a leading `@` or `ref=` and returns the
remainder unvalidated; a bare token is accepted exactly when it matches
e[0-9]+. In particular the three documented forms `@e3`, `ref=e3`, `e3`
all normalize to the token e3, and `bogus` is rejected. -/
theorem parseRef_amended :
    (∀ cs : List Char, parseRefChars ('@' :: cs) = some cs) ∧
    (∀ cs : List Char, parseRefChars ('r' :: 'e' :: 'f' :: '=' :: cs) = some cs) ∧
    (∀ cs : List Char, cs ≠ [] → (∀ c ∈ cs, c.isDigit) →
       parseRefChars ('e' :: cs) = some ('e' :: cs)) ∧
    parseRef "@e3" = some "e3" ∧
    parseRef "ref=e3" = some "e3" ∧
    parseRef "e3" = some "e3" ∧
    parseRef "bogus" = none := by
  refine ⟨fun cs => rfl, fun cs => rfl, ?_, by decide, by decide, by decide, by decide⟩
  intro cs h1 h2
  have hne : cs.isEmpty = false := by
    cases cs with
    | nil => exact absurd rfl h1
    | cons a l => rfl
  have hall : cs.all Char.isDigit = true := List.all_eq_true.mpr (by
    intro c hc
    exact h2 c hc)
  simp [parseRefChars, refTokenChars, hne, hall]

/-- Concrete instantiation of the hypothesis-bearing conjunct of
`parseRef_amended` at the digit list [4, 2]. -/
theorem parseRef_amended_witness :
    parseRefChars ('e' :: ['4', '2']) = some ('e' :: ['4', '2']) :=
  parseRef_amended.2.2.1 ['4', '2'] (by decide) (by decide)

end Snapshot

/-- JS Map get: the value of the first (and, with Map semantics, only)
entry with the given key. -/
def alistGet {α : Type} (m : List (String × α)) (k : String) : Option α :=
  (m.find? (fun p => p.1 == k)).map (fun p => p.2)

/-- JS Map set: update the entry in place, preserving insertion order,
or append a new entry when the key is absent. -/
def alistSet {α : Type} (m : List (String × α)) (k : String) (v : α) : List (String × α) :=
  if (m.find? (fun p => p.1 == k)).isSome then
    m.map (fun p => if p.1 == k then (k, v) else p)
  else m ++ [(k, v)]

/-- JS Map delete: drop the entry with the given key. -/
def alistDelete {α : Type} (m : List (String × α)) (k : String) : List (String × α) :=
  m.filter (fun p => !(p.1 == k))

theorem alistGet_delete_same {α : Type} (m : List (String × α)) (k : String) :
    alistGet (alistDelete m k) k = none := by
  induction m with
  | nil => rfl
  | cons p t ih =>
    by_cases h : p.1 == k
    · simp only [alistDelete] at ih ⊢
      simp [h, ih, alistDelete]
    · simp only [alistDelete, alistGet] at ih ⊢
      simp [h, ih]

namespace Bridge

/-- What happened to the pending table when a response (or a timer)
arrived: either some resolver was settled (resolved or rejected), or
the event was dropped. -/
inductive SettleEvent
  | settled (resolver : Nat) (rejected : Bool)
  | dropped
deriving Repr, DecidableEq

/-- handleExtensionResponse (native host, src/unnamed/part_001): look
the pending request up BY the response id; if found, clear its timer,
delete it and settle it (reject when the response carries an error),
otherwise log the unknown id and drop the response. -/
def handleExtensionResponse (pending : List (String × Nat)) (rid : String)
    (rerr : Option String) : List (String × Nat) × SettleEvent :=
  match alistGet pending rid with
  | some r => (alistDelete pending rid, SettleEvent.settled r rerr.isSome)
  | none => (pending, SettleEvent.dropped)

/-- NativeHostConnection.handleHostResponse (MCP client,
src/unnamed/part_002): iterate the pending map in insertion order,
settle the FIRST entry, delete it, and break — the response id is
received but never consulted. With no pending entries the loop body
never runs and the response is dropped. -/
def handleHostResponse (pending : List (String × Nat)) (_rid : String)
    (rerr : Option String) : List (String × Nat) × SettleEvent :=
  match pending with
  | [] => ([], SettleEvent.dropped)
  | (_, r0) :: rest => (rest, SettleEvent.settled r0 rerr.isSome)

/-- sendToExtension / sendToHost registration: the resolver is stored
under the request id at send time. -/
def registerRequest (pending : List (String × Nat)) (id : String) (r : Nat) :
    List (String × Nat) :=
  alistSet pending id r

/-- The 30-second timeout handler for a request id: remove the pending
entry and reject it. A timer only fires while its id is still pending,
because settlement clears the timer (clearTimeout). -/
def fireTimeout (pending : List (String × Nat)) (id : String) :
    List (String × Nat) × SettleEvent :=
  match alistGet pending id with
  | some r => (alistDelete pending id, SettleEvent.settled r true)
  | none => (pending, SettleEvent.dropped)

/-- C3 counterexample: on the stdio hop, with requests registered under
ids a (resolver 1) and b (resolver 2), a response carrying id b settles
resolver 1 — the first pending request — although the resolver
registered under b is resolver 2. -/
theorem handleHostResponse_fifo_counterexample :
    (handleHostResponse [("a", 1), ("b", 2)] "b" none).2 = SettleEvent.settled 1 false ∧
    alistGet [("a", 1), ("b", 2)] "b" = some 2 ∧
    (1 : Nat) ≠ 2 ∧
    (handleHostResponse [("a", 1), ("b", 2)] "b" none).1 = [("b", 2)] := by
  refine ⟨rfl, by decide, by decide, rfl⟩

/-- C3 amended: the two hops differ. On the IPC hop
(handleExtensionResponse) a response settles exactly the resolver
registered under its id, removes the entry — so a re-delivered id is
dropped — and an id with no registered resolver is dropped without
crashing. On the stdio hop (handleHostResponse) a response settles the
first pending request in insertion order regardless of its id, and a
response with no pending requests is dropped. The timeout handler
removes the pending entry and rejects it. -/
theorem correlator_settlement_amended :
    (∀ (pending : List (String × Nat)) (rid : String) (rerr : Option String) (r : Nat),
       alistGet pending rid = some r →
         handleExtensionResponse pending rid rerr =
           (alistDelete pending rid, SettleEvent.settled r rerr.isSome) ∧
         (handleExtensionResponse (alistDelete pending rid) rid rerr).2 =
           SettleEvent.dropped) ∧
    (∀ (pending : List (String × Nat)) (rid : String) (rerr : Option String),
       alistGet pending rid = none →
         handleExtensionResponse pending rid rerr = (pending, SettleEvent.dropped)) ∧
    (∀ (pending : List (String × Nat)) (k : String) (r0 : Nat) (rid : String)
       (rerr : Option String),
       (handleHostResponse ((k, r0) :: pending) rid rerr).2 =
         SettleEvent.settled r0 rerr.isSome) ∧
    (∀ (rid : String) (rerr : Option String),
       handleHostResponse [] rid rerr = ([], SettleEvent.dropped)) ∧
    (∀ (pending : List (String × Nat)) (id : String) (r : Nat),
       alistGet pending id = some r →
         fireTimeout pending id = (alistDelete pending id, SettleEvent.settled r true)) := by
  refine ⟨?_, ?_, ?_, ?_, ?_⟩
  · intro pending rid rerr r h
    constructor
    · simp [handleExtensionResponse, h]
    · simp [handleExtensionResponse, alistGet_delete_same]
  · intro pending rid rerr h
    simp [handleExtensionResponse, h]
  · intro pending k r0 rid rerr
    rfl
  · intro rid rerr
    rfl
  · intro pending id r h
    simp [fireTimeout, h]

/-- Concrete instantiation of `correlator_settlement_amended`: a single
registered request with id a and resolver 7 is settled by the matching
response, after which a duplicate response for a is dropped. -/
theorem correlator_settlement_amended_witness :
    handleExtensionResponse [("a", 7)] "a" none = ([], SettleEvent.settled 7 false) ∧
    (handleExtensionResponse (alistDelete [("a", 7)] "a") "a" none).2 =
      SettleEvent.dropped := by
  have h := correlator_settlement_amended.1 [("a", 7)] "a" none 7 (by decide)
  exact ⟨by rw [h.1]; rfl, h.2⟩

end Bridge

namespace Protocol

/-- Structured JSON values. The string-to-Json step (JSON.parse) is
modelled as already done: parseCommand receives `some j` for a
well-formed document and `none` for a parse failure. -/
inductive Json where
  | null
  | bool (b : Bool)
  | num (n : Int)
  | str (s : String)
  | arr (elems : List Json)
  | obj (fields : List (String × Json))
deriving Repr

mutual

/-- JavaScript String() coercion, used by parseCommand to surface the
id of an invalid command. -/
def jsString : Json → String
  | Json.null => "null"
  | Json.bool true => "true"
  | Json.bool false => "false"
  | Json.num n => toString n
  | Json.str s => s
  | Json.arr xs => String.intercalate "," (jsStringList xs)
  | Json.obj _ => "[object Object]"

/-- String() of every element of an array, for the Array.toString join. -/
def jsStringList : List Json → List String
  | [] => []
  | x :: xs => jsString x :: jsStringList xs

end

/-- Type names as zod reports them for mismatches. -/
def jsTypeName : Json → String
  | Json.null => "null"
  | Json.bool _ => "boolean"
  | Json.num _ => "number"
  | Json.str _ => "string"
  | Json.arr _ => "array"
  | Json.obj _ => "object"

/-- The closed action set, in the order of the discriminated union in
src/protocol.ts; it coincides with the cases of the executeCommand
switch in src/actions.ts. -/
def actionList : List String :=
  ["launch", "navigate", "click", "type", "fill", "check", "uncheck", "upload",
   "dblclick", "focus", "drag", "frame", "mainframe", "getbyrole", "getbytext",
   "getbylabel", "getbyplaceholder", "press", "screenshot", "snapshot",
   "evaluate", "wait", "scroll", "select", "hover", "content", "close",
   "tab_new", "tab_list", "tab_switch", "tab_close", "window_new",
   "cookies_get", "cookies_set", "cookies_clear", "storage_get", "storage_set",
   "storage_clear", "dialog", "pdf"]

/-- The option list of the zod invalid-discriminator message. -/
def discriminatorExpected : String :=
  String.intercalate " | " (actionList.map (fun a => squote ++ a ++ squote))

/-- The full error string parseCommand produces for an action outside
the closed set: the zod issue at path `action`, prefixed by the
parseCommand wrapper. -/
def unknownActionError : String :=
  "Validation error: action: Invalid discriminator value. Expected " ++
    discriminatorExpected

/-- Result of parseCommand: a validated command (its id and action) or
a failure with the error text and the id when one was parsable. -/
inductive ParseResult where
  | ok (id : String) (action : String)
  | fail (error : String) (id : Option String)
deriving Repr, DecidableEq

/-- parseCommand (src/protocol.ts): JSON.parse failure is `Invalid
JSON`; an id is surfaced from any object input; the zod discriminated
union on `action` rejects any value outside the closed set with the
invalid-discriminator issue at path `action`; for a known action the
base schema requires a string id. Per-variant field checks beyond the
shared base fields are not modelled (no claim depends on them). -/
def parseCommand (input : Option Json) : ParseResult :=
  match input with
  | none => ParseResult.fail "Invalid JSON" none
  | some j =>
    let pid : Option String :=
      match j with
      | Json.obj fields => (alistGet fields "id").map jsString
      | _ => none
    match j with
    | Json.obj fields =>
      match alistGet fields "action" with
      | some (Json.str a) =>
        if actionList.contains a then
          match alistGet fields "id" with
          | some (Json.str i) => ParseResult.ok i a
          | some v =>
            ParseResult.fail
              ("Validation error: id: Expected string, received " ++ jsTypeName v) pid
          | none => ParseResult.fail "Validation error: id: Required" pid
        else ParseResult.fail unknownActionError pid
      | some _ => ParseResult.fail unknownActionError pid
      | none => ParseResult.fail unknownActionError pid
    | _ =>
      ParseResult.fail ("Validation error: : Expected object, received " ++ jsTypeName j) pid

/-- A command/response envelope result. The data payload of successful
responses is not inspected by any claim and is left out. -/
structure Response where
  id : String
  success : Bool
  error : Option String
deriving Repr, DecidableEq

/-- errorResponse (src/protocol.ts). -/
def errorResponse (id err : String) : Response :=
  { id := id, success := false, error := some err }

/-- Outcome of the executeCommand dispatch: either the command routed
to the handler of its action (whose effects live in the automation
engine, outside this embedding), or a response was produced directly. -/
inductive ExecResult where
  | dispatched (action : String)
  | responded (r : Response)
deriving Repr, DecidableEq

/-- executeCommand dispatch skeleton (src/actions.ts): every action of
the closed set routes to its handler; anything else falls through to
the default case, which returns errorResponse(id, Unknown action). -/
def executeCommand (id action : String) : ExecResult :=
  if actionList.contains action then ExecResult.dispatched action
  else ExecResult.responded (errorResponse id ("Unknown action: " ++ action))

/-- One step of the daemon loop. -/
inductive DaemonReply where
  | failure (id : Option String) (error : String)
  | dispatched (id : String) (action : String)
deriving Repr, DecidableEq

/-- Modelled from the spec: the daemon read-loop glue (the daemon and
client sources are not under src/) validates each decoded frame with
parseCommand, resolves validation failures locally as a failure
response that surfaces the parsable id, and dispatches validated
commands to executeCommand (spec sections 2, 4.2, 4.6 and 7). -/
def specDaemonRespond (input : Option Json) : DaemonReply :=
  match parseCommand input with
  | ParseResult.fail e pid => DaemonReply.failure pid e
  | ParseResult.ok i a =>
    match executeCommand i a with
    | ExecResult.dispatched act => DaemonReply.dispatched i act
    | ExecResult.responded r => DaemonReply.failure (some r.id) (r.error.getD "")

set_option maxRecDepth 8192 in
/-- C4 counterexample: a command with action bogus and id 1 is rejected
by parseCommand with the zod invalid-discriminator validation error —
surfacing id 1 — so the end-to-end response error text is the
validation message, not "Unknown action: bogus"; the executeCommand
default case (which does produce that text) is unreachable behind
validation. -/
theorem parseCommand_bogus_action_counterexample :
    parseCommand (some (Json.obj [("id", Json.str "1"), ("action", Json.str "bogus")])) =
      ParseResult.fail unknownActionError (some "1") ∧
    unknownActionError ≠ "Unknown action: bogus" ∧
    specDaemonRespond
        (some (Json.obj [("id", Json.str "1"), ("action", Json.str "bogus")])) =
      DaemonReply.failure (some "1") unknownActionError := by
  refine ⟨by decide, by decide, by decide⟩

/-- C4 amended: an action outside the closed set is a distinct error,
never silently ignored — parseCommand rejects it with the
invalid-discriminator validation error at path action, surfacing the
original id, so the end-to-end response for action bogus carries that
validation message; the executor default case returns Unknown action
only for commands that bypass validation, and every action inside the
closed set dispatches to a handler. -/
theorem unknown_action_validation_amended :
    (∀ (fields : List (String × Json)) (a : String),
       alistGet fields "action" = some (Json.str a) →
       actionList.contains a = false →
       parseCommand (some (Json.obj fields)) =
         ParseResult.fail unknownActionError ((alistGet fields "id").map jsString)) ∧
    (∀ id a : String, actionList.contains a = false →
       executeCommand id a =
         ExecResult.responded (errorResponse id ("Unknown action: " ++ a))) ∧
    (∀ id a : String, actionList.contains a = true →
       executeCommand id a = ExecResult.dispatched a) := by
  refine ⟨?_, ?_, ?_⟩
  · intro fields a ha hcontains
    have h2 : a ∉ actionList := by
      intro hmem
      have hc2 := List.elem_eq_true_of_mem hmem
      rw [List.contains] at hcontains
      rw [hc2] at hcontains
      exact absurd hcontains (by simp)
    simp [parseCommand, ha, h2]
  · intro id a h
    have h2 : a ∉ actionList := by
      intro hmem
      have hc2 := List.elem_eq_true_of_mem hmem
      rw [List.contains] at h
      rw [hc2] at h
      exact absurd h (by simp)
    simp [executeCommand, h2]
  · intro id a h
    have h2 : a ∈ actionList := List.mem_of_elem_eq_true h
    simp [executeCommand, h2]

/-- Concrete instantiation of `unknown_action_validation_amended` at a
command with action bogus and at the known action navigate. -/
theorem unknown_action_validation_amended_witness :
    parseCommand (some (Json.obj [("id", Json.str "1"), ("action", Json.str "bogus")])) =
      ParseResult.fail unknownActionError (some "1") ∧
    executeCommand "1" "bogus" =
      ExecResult.responded (errorResponse "1" "Unknown action: bogus") ∧
    executeCommand "1" "navigate" = ExecResult.dispatched "navigate" := by
  refine ⟨?_, ?_, ?_⟩
  · exact unknown_action_validation_amended.1
      [("id", Json.str "1"), ("action", Json.str "bogus")] "bogus" rfl (by decide)
  · exact unknown_action_validation_amended.2.1 "1" "bogus" (by decide)
  · exact unknown_action_validation_amended.2.2 "1" "navigate" (by decide)

end Protocol

namespace Framing

/-- The fixed oversize ceiling of readMessage: 10 MiB. -/
def maxMessageBytes : Nat := 1024 * 1024 * 10

/-- The 4-byte little-endian length header written by the senders
(Buffer.writeUInt32LE). -/
def toLE4 (n : Nat) : List Nat :=
  [n % 256, n / 256 % 256, n / 65536 % 256, n / 16777216 % 256]

/-- Buffer.readUInt32LE(0): the number encoded by the first four bytes
of a buffer (the callers only invoke it when at least four bytes are
available; a shorter buffer yields 0 here, a case no theorem relies
on). -/
def readUInt32LE : List Nat → Nat
  | b0 :: b1 :: b2 :: b3 :: _ => b0 + 256 * b1 + 65536 * b2 + 16777216 * b3
  | _ => 0

/-- Frame encoder (sendMessage): 4-byte little-endian length header
followed by the payload bytes. Messages are modelled at the byte level;
the JSON layer on top of the payload is invertible and not modelled. -/
def encode (msg : List Nat) : List Nat :=
  toLE4 msg.length ++ msg

theorem readUInt32LE_toLE4 (n : Nat) (rest : List Nat) (h : n < 4294967296) :
    readUInt32LE (toLE4 n ++ rest) = n := by
  simp only [toLE4, readUInt32LE, List.cons_append, List.nil_append]
  omega

theorem readUInt32LE_append (b c : List Nat) (h : 4 ≤ b.length) :
    readUInt32LE (b ++ c) = readUInt32LE b := by
  match b with
  | b0 :: b1 :: b2 :: b3 :: t => rfl
  | [] => simp at h
  | [b0] => simp at h
  | [b0, b1] => simp at h
  | [b0, b1, b2] => simp at h

/-- The socket data handler loop (startIPCServer in part_001,
processBuffer in part_002, and the extension-v2 MCP client): while at
least 4 bytes are buffered and the declared frame is complete, slice
the frame off the front and emit its payload; retain the remainder.
Returns the emitted payloads in order and the retained tail. -/
def drain (buf : List Nat) : List (List Nat) × List Nat :=
  if h4 : buf.length < 4 then ([], buf)
  else
    let len := readUInt32LE buf
    if hc : buf.length < 4 + len then ([], buf)
    else
      let msg := (buf.drop 4).take len
      let rest := buf.drop (4 + len)
      let out := drain rest
      (msg :: out.1, out.2)
termination_by buf.length
decreasing_by
  simp only [List.length_drop]
  omega

/-- One socket data event: append the chunk to the buffered tail and
drain all complete frames. -/
def onChunk (st : List (List Nat) × List Nat) (chunk : List Nat) :
    List (List Nat) × List Nat :=
  let out := drain (st.2 ++ chunk)
  (st.1 ++ out.1, out.2)

/-- Feed a whole chunk sequence to the socket decoder, starting from an
empty buffer: all messages emitted so far, and the retained tail. -/
def runChunks (chunks : List (List Nat)) : List (List Nat) × List Nat :=
  chunks.foldl onChunk ([], [])

theorem drain_small (buf : List Nat) (h : buf.length < 4) : drain buf = ([], buf) := by
  rw [drain]
  simp [h]

theorem drain_incomplete (buf : List Nat) (h4 : ¬ buf.length < 4)
    (hc : buf.length < 4 + readUInt32LE buf) : drain buf = ([], buf) := by
  rw [drain]
  simp [h4, hc]

theorem drain_step (buf : List Nat) (h4 : ¬ buf.length < 4)
    (hc : ¬ buf.length < 4 + readUInt32LE buf) :
    drain buf =
      (((buf.drop 4).take (readUInt32LE buf)) :: (drain (buf.drop (4 + readUInt32LE buf))).1,
       (drain (buf.drop (4 + readUInt32LE buf))).2) := by
  rw [drain]
  simp [h4, hc]

/-- Draining is incremental: appending more bytes first replays the
messages already drained and then continues from the retained tail. -/
theorem drain_append (b c : List Nat) :
    drain (b ++ c) = ((drain b).1 ++ (drain ((drain b).2 ++ c)).1,
                      (drain ((drain b).2 ++ c)).2) := by
  suffices H : ∀ (n : Nat) (b : List Nat), b.length ≤ n →
      drain (b ++ c) = ((drain b).1 ++ (drain ((drain b).2 ++ c)).1,
                        (drain ((drain b).2 ++ c)).2) by
    exact H b.length b le_rfl
  intro n
  induction n with
  | zero =>
    intro b hb
    rw [drain_small b (by omega)]
    simp
  | succ n ih =>
    intro b hb
    by_cases h4 : b.length < 4
    · rw [drain_small b h4]
      simp
    · by_cases hc : b.length < 4 + readUInt32LE b
      · rw [drain_incomplete b h4 hc]
        simp
      · have hlenapp : ¬ (b ++ c).length < 4 := by
          simp only [List.length_append]
          omega
        have hread : readUInt32LE (b ++ c) = readUInt32LE b :=
          readUInt32LE_append b c (by omega)
        have hcapp : ¬ (b ++ c).length < 4 + readUInt32LE (b ++ c) := by
          rw [hread]
          simp only [List.length_append]
          omega
        rw [drain_step b h4 hc, drain_step (b ++ c) hlenapp hcapp, hread]
        have hdrop4 : (b ++ c).drop 4 = b.drop 4 ++ c :=
          List.drop_append_of_le_length (by omega)
        have htake : ((b ++ c).drop 4).take (readUInt32LE b) =
            (b.drop 4).take (readUInt32LE b) := by
          rw [hdrop4]
          exact List.take_append_of_le_length (by simp; omega)
        have hdroprest : (b ++ c).drop (4 + readUInt32LE b) =
            b.drop (4 + readUInt32LE b) ++ c :=
          List.drop_append_of_le_length (by omega)
        rw [htake, hdroprest]
        rw [ih (b.drop (4 + readUInt32LE b)) (by simp; omega)]
        simp

/-- Draining the concatenated encodings of a message list yields the
messages in order with an empty tail. -/
theorem drain_encodeAll (msgs : List (List Nat))
    (hlt : ∀ m ∈ msgs, m.length < 4294967296) :
    drain (msgs.map encode).join = (msgs, []) := by
  induction msgs with
  | nil => exact drain_small [] (by decide)
  | cons m t ih =>
    have hm : m.length < 4294967296 := hlt m (List.mem_cons_self m t)
    have ht : ∀ x ∈ t, x.length < 4294967296 := fun x hx => hlt x (List.mem_cons_of_mem m hx)
    simp only [List.map_cons, List.join_cons]
    have hbuf : encode m ++ (t.map encode).join =
        toLE4 m.length ++ (m ++ (t.map encode).join) := by
      simp [encode]
    rw [hbuf]
    have hlen : (toLE4 m.length ++ (m ++ (t.map encode).join)).length =
        4 + (m.length + (t.map encode).join.length) := by
      simp [toLE4]
      omega
    have hread : readUInt32LE (toLE4 m.length ++ (m ++ (t.map encode).join)) = m.length :=
      readUInt32LE_toLE4 m.length _ hm
    have h4 : ¬ (toLE4 m.length ++ (m ++ (t.map encode).join)).length < 4 := by
      rw [hlen]; omega
    have hc : ¬ (toLE4 m.length ++ (m ++ (t.map encode).join)).length <
        4 + readUInt32LE (toLE4 m.length ++ (m ++ (t.map encode).join)) := by
      rw [hlen, hread]; omega
    rw [drain_step _ h4 hc, hread]
    have hdrop4 : (toLE4 m.length ++ (m ++ (t.map encode).join)).drop 4 =
        m ++ (t.map encode).join := by
      have : (toLE4 m.length).length = 4 := by simp [toLE4]
      rw [← this, List.drop_left]
    have htake : ((toLE4 m.length ++ (m ++ (t.map encode).join)).drop 4).take m.length = m := by
      rw [hdrop4]
      exact List.take_left m _
    have hdroprest : (toLE4 m.length ++ (m ++ (t.map encode).join)).drop (4 + m.length) =
        (t.map encode).join := by
      have h1 : toLE4 m.length ++ (m ++ (t.map encode).join) =
          (toLE4 m.length ++ m) ++ (t.map encode).join := by simp
      have h2 : (toLE4 m.length ++ m).length = 4 + m.length := by
        simp [toLE4]
        omega
      rw [h1, ← h2, List.drop_left]
    rw [htake, hdroprest, ih ht]

/-- A drained tail never itself contains a complete frame: draining it
again emits nothing. -/
theorem drain_tail_fixpoint (buf : List Nat) : drain (drain buf).2 = ([], (drain buf).2) := by
  suffices H : ∀ (n : Nat) (b : List Nat), b.length ≤ n →
      drain (drain b).2 = ([], (drain b).2) by
    exact H buf.length buf le_rfl
  intro n
  induction n with
  | zero =>
    intro b hb
    rw [drain_small b (by omega)]
    exact drain_small b (by omega)
  | succ n ih =>
    intro b hb
    by_cases h4 : b.length < 4
    · rw [drain_small b h4]
      exact drain_small b h4
    · by_cases hc : b.length < 4 + readUInt32LE b
      · rw [drain_incomplete b h4 hc]
        exact drain_incomplete b h4 hc
      · rw [drain_step b h4 hc]
        exact ih (b.drop (4 + readUInt32LE b)) (by simp; omega)

/-- Folding the per-chunk handler over any chunk list is the same as
draining the concatenation of all chunks at once. -/
theorem runChunks_eq_drain_join (chunks : List (List Nat)) :
    runChunks chunks = drain chunks.join := by
  suffices H : ∀ (cs : List (List Nat)) (acc : List (List Nat)) (buf : List Nat),
      drain buf = ([], buf) →
      cs.foldl onChunk (acc, buf) =
        (acc ++ (drain (buf ++ cs.join)).1, (drain (buf ++ cs.join)).2) by
    have h := H chunks [] [] (drain_small [] (by decide))
    simp only [runChunks, h]
    simp
  intro cs
  induction cs with
  | nil =>
    intro acc buf hfix
    simp [hfix]
  | cons c t ih =>
    intro acc buf hfix
    simp only [List.foldl_cons, onChunk, List.join_cons]
    rw [ih _ _ (drain_tail_fixpoint (buf ++ c))]
    have hassoc : buf ++ (c ++ t.join) = (buf ++ c) ++ t.join :=
      (List.append_assoc buf c t.join).symm
    rw [hassoc, drain_append (buf ++ c) t.join]
    simp [List.append_assoc]

/-- C2 amended (socket decoders): for every message sequence and every
split of the concatenated frames into data-event chunks, the socket
data handler emits exactly the original messages in order and retains
an empty tail — it buffers across chunk boundaries, processes every
complete frame in a chunk, and keeps any partial tail for the next
event. -/
theorem socket_decoder_chunking_round_trip (msgs : List (List Nat))
    (chunks : List (List Nat))
    (hlt : ∀ m ∈ msgs, m.length < 4294967296)
    (hsplit : chunks.join = (msgs.map encode).join) :
    runChunks chunks = (msgs, []) := by
  rw [runChunks_eq_drain_join, hsplit]
  exact drain_encodeAll msgs hlt

/-- Concrete instantiation of `socket_decoder_chunking_round_trip`: two
frames carrying payloads [7] and [8, 9], split at boundaries that cut
both headers and the first payload. -/
theorem socket_decoder_chunking_round_trip_witness :
    runChunks [[1, 0], [0, 0], [7, 2, 0, 0], [0, 8, 9]] = ([[7], [8, 9]], []) :=
  socket_decoder_chunking_round_trip [[7], [8, 9]] [[1, 0], [0, 0], [7, 2, 0, 0], [0, 8, 9]]
    (by decide) (by decide)

/-- Outcome of one readMessage invocation (part_001): the promise
rejects on an oversized declared length, resolves with the first
complete frame payload — `rest` lists the data events that arrive after
the resolving one and go to the NEXT readMessage; any bytes beyond the
first frame inside the resolving chunk are discarded with the dead
listener closure — or the stream ends while the frame is incomplete. -/
inductive ReadOutcome where
  | tooLarge (declared : Nat) (rest : List (List Nat))
  | message (payload : List Nat) (rest : List (List Nat))
  | pending (buffer : List Nat) (expected : Option Nat)
deriving Repr, DecidableEq

/-- The onData handler of readMessage, driven over a queue of incoming
data events: concatenate the chunk, read the length header once 4 bytes
are buffered, reject a declared length above the 10 MiB ceiling
immediately, and resolve as soon as the declared frame is complete.
The JSON.parse of the payload is invertible on the encodings modelled
here and is not embedded. -/
def readMessageAux : List Nat → Option Nat → List (List Nat) → ReadOutcome
  | buf, exp, [] => ReadOutcome.pending buf exp
  | buf, exp, chunk :: rest =>
    let buffer := buf ++ chunk
    match exp with
    | none =>
      if 4 ≤ buffer.length then
        let len := readUInt32LE buffer
        if maxMessageBytes < len then ReadOutcome.tooLarge len rest
        else if 4 + len ≤ buffer.length then
          ReadOutcome.message ((buffer.drop 4).take len) rest
        else readMessageAux buffer (some len) rest
      else readMessageAux buffer none rest
    | some len =>
      if 4 + len ≤ buffer.length then
        ReadOutcome.message ((buffer.drop 4).take len) rest
      else readMessageAux buffer (some len) rest

/-- One full readMessage call: fresh buffer, no expected length yet. -/
def readMessage (chunks : List (List Nat)) : ReadOutcome :=
  readMessageAux [] none chunks

theorem readMessageAux_message_rest_length (buf : List Nat) (exp : Option Nat)
    (chunks : List (List Nat)) (m : List Nat) (rest : List (List Nat))
    (h : readMessageAux buf exp chunks = ReadOutcome.message m rest) :
    rest.length < chunks.length := by
  induction chunks generalizing buf exp with
  | nil => exact absurd h (by simp [readMessageAux])
  | cons c t ih =>
    rw [readMessageAux.eq_def] at h
    match exp with
    | none =>
      simp only [] at h
      split at h
      · split at h
        · exact absurd h (by simp)
        · split at h
          · simp only [ReadOutcome.message.injEq] at h
            simp [← h.2]
          · have := ih _ _ h
            simp only [List.length_cons]
            omega
      · have := ih _ _ h
        simp only [List.length_cons]
        omega
    | some len =>
      simp only [] at h
      split at h
      · simp only [ReadOutcome.message.injEq] at h
        simp [← h.2]
      · have := ih _ _ h
        simp only [List.length_cons]
        omega

/-- The native host main loop: read one message per readMessage call;
after a resolve, the NEXT call starts with a fresh empty buffer and
only sees the chunks that had not yet been delivered. -/
def mainLoop (chunks : List (List Nat)) : List (List Nat) :=
  match h : readMessage chunks with
  | ReadOutcome.message m rest =>
    have _hlt := readMessageAux_message_rest_length [] none chunks m rest h
    m :: mainLoop rest
  | ReadOutcome.tooLarge _ _ => []
  | ReadOutcome.pending _ _ => []
termination_by chunks.length
decreasing_by
  exact _hlt

theorem readMessageAux_oversize (chunks : List (List Nat)) :
    ∀ buf : List Nat, buf.length < 4 → 4 ≤ (buf ++ chunks.join).length →
    maxMessageBytes < readUInt32LE (buf ++ chunks.join) →
    ∃ rest, readMessageAux buf none chunks =
      ReadOutcome.tooLarge (readUInt32LE (buf ++ chunks.join)) rest := by
  induction chunks with
  | nil =>
    intro buf hb h4 _
    simp only [List.join_nil, List.append_nil] at h4
    omega
  | cons c t ih =>
    intro buf hb h4 hover
    have hassoc : buf ++ (c :: t).join = (buf ++ c) ++ t.join := by
      simp
    rw [hassoc] at h4 hover
    rw [readMessageAux.eq_def]
    simp only []
    by_cases hlen : 4 ≤ (buf ++ c).length
    · have hr : readUInt32LE ((buf ++ c) ++ t.join) = readUInt32LE (buf ++ c) :=
        readUInt32LE_append _ _ hlen
      rw [hr] at hover
      rw [if_pos hlen, if_pos hover]
      refine ⟨t, ?_⟩
      rw [hassoc, hr]
    · rw [if_neg hlen]
      have hb2 : (buf ++ c).length < 4 := by omega
      have h := ih (buf ++ c) hb2 h4 hover
      rw [hassoc]
      exact h

/-- C9: whenever the first four bytes of the incoming stdin stream
declare a length above the 10 MiB ceiling, readMessage rejects with
that declared length at the first data event that makes the header
readable — before waiting for, or assembling, any of the declared
payload — and never resolves with a message. -/
theorem readMessage_oversize_rejected (chunks : List (List Nat))
    (h4 : 4 ≤ chunks.join.length)
    (hover : maxMessageBytes < readUInt32LE chunks.join) :
    (∃ rest, readMessage chunks =
       ReadOutcome.tooLarge (readUInt32LE chunks.join) rest) ∧
    ∀ m r, readMessage chunks ≠ ReadOutcome.message m r := by
  have h := readMessageAux_oversize chunks [] (by decide) (by simpa using h4)
    (by simpa using hover)
  simp only [List.nil_append] at h
  obtain ⟨rest, hrest⟩ := h
  refine ⟨⟨rest, hrest⟩, ?_⟩
  intro m r hcontra
  simp only [readMessage] at hcontra
  rw [hcontra] at hrest
  exact absurd hrest (by simp)

/-- Concrete instantiation of `readMessage_oversize_rejected`: a header
declaring 16777216 bytes (16 MiB), split across two data events, is
rejected as soon as the fourth header byte arrives. -/
theorem readMessage_oversize_rejected_witness :
    (∃ rest, readMessage [[0, 0], [0, 1, 9]] =
       ReadOutcome.tooLarge 16777216 rest) ∧
    ∀ m r, readMessage [[0, 0], [0, 1, 9]] ≠ ReadOutcome.message m r :=
  readMessage_oversize_rejected [[0, 0], [0, 1, 9]] (by decide) (by decide)

theorem mainLoop_message (chunks : List (List Nat)) (m : List Nat)
    (rest : List (List Nat)) (h : readMessage chunks = ReadOutcome.message m rest) :
    mainLoop chunks = m :: mainLoop rest := by
  rw [mainLoop.eq_def]
  split
  · rename_i m2 rest2 hm2
    rw [h] at hm2
    injection hm2 with h1 h2
    rw [h1, h2]
  · rename_i d r2 hm2
    rw [h] at hm2
    exact absurd hm2 (by simp)
  · rename_i b e hm2
    rw [h] at hm2
    exact absurd hm2 (by simp)

theorem mainLoop_nil : mainLoop [] = [] := by
  rw [mainLoop.eq_def]
  have h : readMessage ([] : List (List Nat)) = ReadOutcome.pending [] none := rfl
  split
  · rename_i m2 rest2 hm2
    rw [h] at hm2
    exact absurd hm2 (by simp)
  · rfl
  · rfl

/-- C2 counterexample: the stdin decoder (readMessage) violates the
chunking round-trip. When the frames of payloads [65] and [66] arrive
concatenated in a single data event, the first readMessage resolves
with [65] and discards the trailing bytes of its buffer, so the message
loop delivers only [65] — while the socket decoder fed the same single
chunk recovers both messages. -/
theorem readMessage_drops_second_frame_counterexample :
    ([[65], [66]] : List (List Nat)).map encode = [[1, 0, 0, 0, 65], [1, 0, 0, 0, 66]] ∧
    readMessage [[1, 0, 0, 0, 65, 1, 0, 0, 0, 66]] = ReadOutcome.message [65] [] ∧
    mainLoop [[1, 0, 0, 0, 65, 1, 0, 0, 0, 66]] = [[65]] ∧
    mainLoop [[1, 0, 0, 0, 65, 1, 0, 0, 0, 66]] ≠ [[65], [66]] ∧
    runChunks [[1, 0, 0, 0, 65, 1, 0, 0, 0, 66]] = ([[65], [66]], []) := by
  have hread : readMessage [[1, 0, 0, 0, 65, 1, 0, 0, 0, 66]] =
      ReadOutcome.message [65] [] := by decide
  have hloop : mainLoop [[1, 0, 0, 0, 65, 1, 0, 0, 0, 66]] = [[65]] := by
    rw [mainLoop_message _ _ _ hread, mainLoop_nil]
  refine ⟨by decide, hread, hloop, by rw [hloop]; decide, ?_⟩
  rw [runChunks_eq_drain_join]
  have h := drain_encodeAll [[65], [66]] (by decide)
  simpa using h
end Framing


namespace Snapshot

/-- Roles that are interactive and should get refs. -/
def INTERACTIVE_ROLES : List String :=
  ["button", "link", "textbox", "checkbox", "radio", "combobox", "listbox",
   "menuitem", "menuitemcheckbox", "menuitemradio", "option", "searchbox",
   "slider", "spinbutton", "switch", "tab", "treeitem"]

/-- Roles that provide structure/context (refs for text extraction). -/
def CONTENT_ROLES : List String :=
  ["heading", "cell", "gridcell", "columnheader", "rowheader", "listitem",
   "article", "region", "main", "navigation"]

/-- Roles that are purely structural (filtered in compact mode). -/
def STRUCTURAL_ROLES : List String :=
  ["generic", "group", "list", "table", "row", "rowgroup", "grid", "treegrid",
   "menu", "menubar", "toolbar", "tablist", "tree", "directory", "document",
   "application", "presentation", "none"]

/-- A DOM element as the traversal consumes it. `nid` is node identity
(the object identity the refMap stores). The per-node outputs of
getRole, getAccessibleName, isVisible and getExtraAttributes are
environment-dependent (computed style, layout, labels elsewhere in the
document, ARIA state) and are modelled as oracle attributes carried on
the node: `role`, `name`, `visible` and `extra`. -/
inductive DomNode where
  | mk (nid : Nat) (role : String) (name : String) (visible : Bool)
       (extra : String) (children : List DomNode)

def DomNode.nid : DomNode → Nat
  | DomNode.mk n _ _ _ _ _ => n

def DomNode.role : DomNode → String
  | DomNode.mk _ r _ _ _ _ => r

def DomNode.name : DomNode → String
  | DomNode.mk _ _ n _ _ _ => n

def DomNode.visible : DomNode → Bool
  | DomNode.mk _ _ _ v _ _ => v

def DomNode.children : DomNode → List DomNode
  | DomNode.mk _ _ _ _ _ cs => cs

mutual

/-- All node identities in a tree, in depth-first order: the notion of
being attached to (a node of) this document tree. -/
def DomNode.ids : DomNode → List Nat
  | DomNode.mk n _ _ _ _ cs => n :: idsList cs

def idsList : List DomNode → List Nat
  | [] => []
  | x :: xs => DomNode.ids x ++ idsList xs

end

/-- Whether the node with this identity is attached to the given live
document tree. -/
def attachedIn (root : DomNode) (nid : Nat) : Bool :=
  (DomNode.ids root).contains nid

/-- The per-ref record stored in the snapshot refs object. -/
structure RefData where
  selector : String
  role : String
  name : Option String
  nth : Option Nat
deriving Repr, DecidableEq

/-- Snapshot options (the selector scoping option requires
document.querySelector and is not modelled; the root passed in is the
already-scoped root). -/
structure SnapOptions where
  interactive : Bool
  maxDepth : Option Nat
  compact : Bool
deriving Repr, DecidableEq

def defaultOpts : SnapOptions :=
  { interactive := false, maxDepth := none, compact := false }

/-- Mutable state of one buildSnapshot invocation: the ref counter and
ref map (module state reset by resetRefs), the duplicate tracker
(counts and refsByKey), the refs object in insertion order, and the
rendered lines. -/
structure SnapState where
  refCounter : Nat
  refMap : List (String × Nat)
  counts : List (String × Nat)
  refsByKey : List (String × List String)
  refs : List (String × RefData)
  lines : List String
deriving Repr

def initState : SnapState :=
  { refCounter := 0, refMap := [], counts := [], refsByKey := [], refs := [], lines := [] }

/-- Tracker key: role and name joined by a colon (name defaulted to the
empty string). -/
def trackerKey (role name : String) : String := role ++ ":" ++ name

/-- The tracker key of a stored entry, as the post-pass recomputes it
from the RefData (undefined name coalesced to the empty string). -/
def entryKey (p : String × RefData) : String := trackerKey p.2.role (p.2.name.getD "")

/-- tracker.getNextIndex: the 0-based ordinal of this (role, name)
occurrence, incrementing the per-key counter. -/
def getNextIndex (st : SnapState) (role name : String) : Nat × SnapState :=
  let key := trackerKey role name
  let current := (alistGet st.counts key).getD 0
  (current, { st with counts := alistSet st.counts key (current + 1) })

/-- tracker.trackRef: append this ref under its (role, name) key. -/
def trackRef (st : SnapState) (role name ref : String) : SnapState :=
  let key := trackerKey role name
  let refs := (alistGet st.refsByKey key).getD []
  { st with refsByKey := alistSet st.refsByKey key (refs ++ [ref]) }

/-- Escape double quotes for the Playwright-style selector. -/
def escapeQuotes (s : String) : String :=
  String.join (s.data.map (fun c => if c = '"' then "\\\"" else String.mk [c]))

/-- buildSelector: a Playwright-style getByRole locator string. -/
def buildSelector (role name : String) : String :=
  if name ≠ "" then
    "getByRole(" ++ squote ++ role ++ squote ++ ", \x7b name: \"" ++
      escapeQuotes name ++ "\", exact: true \x7d)"
  else
    "getByRole(" ++ squote ++ role ++ squote ++ ")"

/-- Two spaces of indentation per depth level. -/
def indentOf (d : Nat) : String := String.join (List.replicate d "  ")

/-- The ref-assignment block of processNode: allocate the next ref id,
take the (role, name) ordinal, track the ref under its key, store the
RefData, and record the ref-to-node binding. Returns the new state, the
ref and the ordinal. -/
def assignRef (st : SnapState) (nid : Nat) (role name : String) :
    SnapState × String × Nat :=
  let ref := "e" ++ toString (st.refCounter + 1)
  let st1 := { st with refCounter := st.refCounter + 1 }
  let res := getNextIndex st1 role name
  let st3 := trackRef res.2 role name ref
  let st4 := { st3 with
    refs := st3.refs ++ [(ref,
      { selector := buildSelector role name, role := role,
        name := if name = "" then none else some name,
        nth := some res.1 })],
    refMap := alistSet st3.refMap ref nid }
  (st4, ref, res.1)

/-- The emission step of processNode for a node that is not skipped:
render the line, assign a ref when the node is interactive or a named
content-bearing role, append the extra attributes and push the line. -/
def emitNode (nid : Nat) (role name extra : String) (depth : Nat) (st : SnapState) :
    SnapState :=
  let line1 := indentOf depth ++ "- " ++ role ++
    (if name ≠ "" then " \"" ++ name ++ "\"" else "")
  if INTERACTIVE_ROLES.contains role || (CONTENT_ROLES.contains role && name ≠ "") then
    let res := assignRef st nid role name
    { res.1 with lines := res.1.lines ++
        [line1 ++ " [ref=" ++ res.2.1 ++ "]" ++
         (if 0 < res.2.2 then " [nth=" ++ toString res.2.2 ++ "]" else "") ++ extra] }
  else
    { st with lines := st.lines ++ [line1 ++ extra] }

mutual

/-- processNode of buildSnapshot: skip invisible nodes and nodes past
maxDepth; in interactive-only or compact mode skip the node itself but
recurse at the same depth; otherwise emit the node and recurse at
depth + 1. -/
def processNode (opts : SnapOptions) : DomNode → Nat → SnapState → SnapState
  | DomNode.mk nid role name visible extra children, depth, st =>
    if visible = false then st
    else if (match opts.maxDepth with | some d => decide (d < depth) | none => false) then st
    else if opts.interactive && !(INTERACTIVE_ROLES.contains role) then
      processNodes opts children depth st
    else if opts.compact && STRUCTURAL_ROLES.contains role && name = "" then
      processNodes opts children depth st
    else
      processNodes opts children (depth + 1) (emitNode nid role name extra depth st)

/-- Traversal of a child list, left to right. -/
def processNodes (opts : SnapOptions) : List DomNode → Nat → SnapState → SnapState
  | [], _, st => st
  | x :: xs, depth, st => processNodes opts xs depth (processNode opts x depth st)

end

/-- Whether one string occurs inside another (String.prototype.includes). -/
def strContains (s pat : String) : Bool := decide (1 < (s.splitOn pat).length)

/-- Count of leading space characters. -/
def leadingSpaces : List Char → Nat
  | ' ' :: rest => leadingSpaces rest + 1
  | _ => 0

/-- getIndentLevel: leading whitespace width divided by two. -/
def getIndentLevel (line : String) : Nat := leadingSpaces line.data / 2

/-- The inner lookahead of compactTree: does some strictly deeper line,
before indentation returns to the current level, carry a ref. -/
def descendantHasRef (cur : Nat) : List String → Bool
  | [] => false
  | l :: ls =>
    if getIndentLevel l ≤ cur then false
    else if strContains l "[ref=" then true
    else descendantHasRef cur ls

/-- The compactTree filter: keep ref-bearing lines, text-bearing lines,
and structural lines with a ref-bearing descendant. -/
def compactLines : List String → List String
  | [] => []
  | l :: ls =>
    if strContains l "[ref=" then l :: compactLines ls
    else if strContains l ":" && !(l.endsWith ":") then l :: compactLines ls
    else if descendantHasRef (getIndentLevel l) ls then l :: compactLines ls
    else compactLines ls

/-- compactTree: drop empty structural branches. -/
def compactTree (tree : String) : String :=
  String.intercalate "\n" (compactLines (tree.splitOn "\n"))

/-- The result of buildSnapshot. The ref-to-node map is module state in
the source (consulted by resolveRef); it is carried in the result here
as the current generation map. -/
structure EnhancedSnapshot where
  tree : String
  refs : List (String × RefData)
  refMap : List (String × Nat)

/-- tracker.getDuplicateKeys: the keys tracking more than one ref. -/
def dupKeys (st : SnapState) : List String :=
  (st.refsByKey.filter (fun p => decide (1 < p.2.length))).map (fun p => p.1)

/-- The nth post-pass applied to one entry: delete nth unless the
entry's key is a duplicate key. -/
def dropNth (dup : List String) (p : String × RefData) : String × RefData :=
  if dup.contains (entryKey p) then p else (p.1, { p.2 with nth := none })

/-- buildSnapshot: reset the state, traverse from the root, drop `nth`
from every entry whose (role, name) key has fewer than two tracked
refs, emit the placeholder for an empty traversal, and apply the
compact post-pass when requested. -/
def buildSnapshot (root : DomNode) (opts : SnapOptions) : EnhancedSnapshot :=
  let st := processNode opts root 0 initState
  let refsFinal := st.refs.map (dropNth (dupKeys st))
  if st.lines.isEmpty then
    { tree := if opts.interactive then "(no interactive elements)" else "(empty)",
      refs := [], refMap := st.refMap }
  else
    { tree := if opts.compact then compactTree (String.intercalate "\n" st.lines)
              else String.intercalate "\n" st.lines,
      refs := refsFinal, refMap := st.refMap }

/-- resolveRef: a bare map lookup in the current generation refMap —
`refMap.get(ref) ?? null` — with NO check that the node is still
attached to the live tree. -/
def resolveRef (refMap : List (String × Nat)) (ref : String) : Option Nat :=
  alistGet refMap ref

end Snapshot

example :
    (Snapshot.buildSnapshot
      (Snapshot.DomNode.mk 0 "generic" "" true ""
        [Snapshot.DomNode.mk 1 "button" "OK" true "" []])
      Snapshot.defaultOpts).refMap = [("e1", 1)] := by decide

theorem alistSet_mem {α : Type} (m : List (String × α)) (k : String) (v : α) :
    ∀ p ∈ alistSet m k v, p ∈ m ∨ p = (k, v) := by
  intro p hp
  unfold alistSet at hp
  split at hp
  · obtain ⟨q, hq, hfq⟩ := List.mem_map.mp hp
    by_cases hqk : q.1 == k
    · right
      rw [if_pos hqk] at hfq
      exact hfq.symm
    · left
      rw [if_neg hqk] at hfq
      rw [← hfq]
      exact hq
  · rcases List.mem_append.mp hp with h | h
    · exact Or.inl h
    · right
      simpa using h

theorem alistGet_mem {α : Type} (m : List (String × α)) (k : String) (v : α)
    (h : alistGet m k = some v) : ∃ p ∈ m, p.1 = k ∧ p.2 = v := by
  unfold alistGet at h
  cases hf : m.find? (fun p => p.1 == k) with
  | none => rw [hf] at h; simp at h
  | some p =>
    rw [hf] at h
    refine ⟨p, List.mem_of_find?_eq_some hf, ?_, ?_⟩
    · have := List.find?_some hf
      simpa using this
    · have h2 : some p.2 = some v := h
      injection h2

namespace Snapshot

theorem emitNode_refMap_sub (nid : Nat) (role name extra : String) (depth : Nat)
    (st : SnapState) :
    ∀ p ∈ (emitNode nid role name extra depth st).refMap, p ∈ st.refMap ∨ p.2 = nid := by
  intro p hp
  simp only [emitNode] at hp
  split at hp
  · simp only [assignRef, trackRef, getNextIndex] at hp
    rcases alistSet_mem _ _ _ p hp with h | h
    · exact Or.inl h
    · right
      rw [h]
  · exact Or.inl hp

mutual

theorem processNode_refMap_sub (opts : SnapOptions) (node : DomNode) (depth : Nat)
    (st : SnapState) :
    ∀ p ∈ (processNode opts node depth st).refMap,
      p ∈ st.refMap ∨ p.2 ∈ DomNode.ids node := by
  match node with
  | DomNode.mk nid role name visible extra children =>
    intro p hp
    rw [processNode] at hp
    split at hp
    · exact Or.inl hp
    · split at hp
      · exact Or.inl hp
      · split at hp
        · rcases processNodes_refMap_sub opts children depth st p hp with h | h
          · exact Or.inl h
          · right
            rw [DomNode.ids]
            exact List.mem_cons_of_mem nid h
        · split at hp
          · rcases processNodes_refMap_sub opts children depth st p hp with h | h
            · exact Or.inl h
            · right
              rw [DomNode.ids]
              exact List.mem_cons_of_mem nid h
          · rcases processNodes_refMap_sub opts children (depth + 1) _ p hp with h | h
            · rcases emitNode_refMap_sub nid role name extra depth st p h with h2 | h2
              · exact Or.inl h2
              · right
                rw [DomNode.ids, h2]
                exact List.mem_cons_self nid _
            · right
              rw [DomNode.ids]
              exact List.mem_cons_of_mem nid h

theorem processNodes_refMap_sub (opts : SnapOptions) (l : List DomNode) (depth : Nat)
    (st : SnapState) :
    ∀ p ∈ (processNodes opts l depth st).refMap,
      p ∈ st.refMap ∨ p.2 ∈ idsList l := by
  match l with
  | [] =>
    intro p hp
    exact Or.inl hp
  | x :: xs =>
    intro p hp
    rw [processNodes] at hp
    rcases processNodes_refMap_sub opts xs depth (processNode opts x depth st) p hp with h | h
    · rcases processNode_refMap_sub opts x depth st p h with h2 | h2
      · exact Or.inl h2
      · right
        rw [idsList]
        exact List.mem_append.mpr (Or.inl h2)
    · right
      rw [idsList]
      exact List.mem_append.mpr (Or.inr h)

end

end Snapshot

namespace Snapshot

/-- A body with one attached button (node 1). -/
def bodyWithButton : DomNode :=
  DomNode.mk 0 "generic" "" true "" [DomNode.mk 1 "button" "OK" true "" []]

/-- The same body after the button was removed from the live tree. -/
def bodyAfterDetach : DomNode :=
  DomNode.mk 0 "generic" "" true "" []

/-- C1 counterexample: the snapshot of the body assigns e1 to the
button node 1; after the button is detached from the live tree,
resolveRef("e1") still returns node 1 — a node no longer attached —
instead of reporting not-found. -/
theorem resolveRef_detached_counterexample :
    resolveRef (buildSnapshot bodyWithButton defaultOpts).refMap "e1" = some 1 ∧
    attachedIn bodyAfterDetach 1 = false ∧
    ¬ resolveRef (buildSnapshot bodyWithButton defaultOpts).refMap "e1" = none := by
  refine ⟨by decide, by decide, by decide⟩

/-- C1 amended: resolveRef is a bare lookup in the current generation
map with no liveness re-validation: whenever it returns a node, that
node is the one captured for the ref at snapshot time — a node that was
attached to the snapshotted tree — whether or not it is still attached
to the live tree at resolution time (the counterexample returns a
detached node). A ref with no binding in the generation map yields
none. -/
theorem resolveRef_returns_snapshot_time_node (root : DomNode) (opts : SnapOptions)
    (ref : String) (n : Nat)
    (h : resolveRef (buildSnapshot root opts).refMap ref = some n) :
    attachedIn root n = true := by
  have hmap : (buildSnapshot root opts).refMap =
      (processNode opts root 0 initState).refMap := by
    by_cases hemp : (processNode opts root 0 initState).lines.isEmpty
    · simp [buildSnapshot, hemp]
    · simp [buildSnapshot, hemp]
  rw [hmap] at h
  obtain ⟨p, hpmem, -, hpv⟩ := alistGet_mem _ _ _ h
  rcases processNode_refMap_sub opts root 0 initState p hpmem with h2 | h2
  · exact absurd h2 (by simp [initState])
  · rw [← hpv]
    exact List.elem_eq_true_of_mem h2

/-- Concrete instantiation of `resolveRef_returns_snapshot_time_node`:
e1 of the button snapshot resolves to node 1, which was attached to the
snapshotted tree. -/
theorem resolveRef_returns_snapshot_time_node_witness :
    attachedIn bodyWithButton 1 = true :=
  resolveRef_returns_snapshot_time_node bodyWithButton defaultOpts "e1" 1 (by decide)

end Snapshot

theorem find?_append_none {α : Type} (p : α → Bool) (l1 l2 : List α)
    (h : l1.find? p = none) : (l1 ++ l2).find? p = l2.find? p := by
  induction l1 with
  | nil => rfl
  | cons a t ih =>
    by_cases hpa : p a = true
    · rw [List.find?_cons_of_pos _ hpa] at h
      exact absurd h (by simp)
    · rw [List.find?_cons_of_neg _ (by simpa using hpa)] at h
      rw [List.cons_append, List.find?_cons_of_neg _ (by simpa using hpa)]
      exact ih h

theorem find?_map_update_same {α : Type} (m : List (String × α)) (k : String) (v : α) :
    (m.map (fun p => if p.1 == k then (k, v) else p)).find? (fun p => p.1 == k) =
      (m.find? (fun p => p.1 == k)).map (fun _ => (k, v)) := by
  induction m with
  | nil => rfl
  | cons p t ih =>
    by_cases hp : (p.1 == k) = true
    · simp only [List.map_cons, if_pos hp]
      rw [List.find?_cons_of_pos (p := fun q : String × _ => q.1 == k) _ (by simp),
          List.find?_cons_of_pos (p := fun q : String × _ => q.1 == k) _ hp]
      rfl
    · simp only [List.map_cons, if_neg hp]
      rw [List.find?_cons_of_neg _ (by simpa using hp),
          List.find?_cons_of_neg _ (by simpa using hp)]
      exact ih

theorem find?_map_update_ne {α : Type} (m : List (String × α)) (k : String) (v : α)
    (k2 : String) (hne : ¬ k2 = k) :
    (m.map (fun p => if p.1 == k then (k, v) else p)).find? (fun p => p.1 == k2) =
      m.find? (fun p => p.1 == k2) := by
  induction m with
  | nil => rfl
  | cons p t ih =>
    by_cases hp : (p.1 == k) = true
    · have hpk : p.1 = k := by simpa using hp
      have h1 : ((k : String) == k2) = false := by
        simp only [beq_eq_false_iff_ne, ne_eq]
        intro hkk
        exact hne hkk.symm
      have h2 : (p.1 == k2) = false := by
        rw [hpk]
        exact h1
      simp only [List.map_cons, if_pos hp]
      rw [List.find?_cons_of_neg _ (by simp [h1]), List.find?_cons_of_neg _ (by simp [h2])]
      exact ih
    · simp only [List.map_cons, if_neg hp]
      by_cases hp2 : (p.1 == k2) = true
      · rw [List.find?_cons_of_pos (p := fun q : String × _ => q.1 == k2) _ hp2,
            List.find?_cons_of_pos (p := fun q : String × _ => q.1 == k2) _ hp2]
      · rw [List.find?_cons_of_neg _ (by simpa using hp2),
            List.find?_cons_of_neg _ (by simpa using hp2)]
        exact ih

theorem find?_append_some {α : Type} (p : α → Bool) (l1 l2 : List α) (a : α)
    (h : l1.find? p = some a) : (l1 ++ l2).find? p = some a := by
  induction l1 with
  | nil => simp at h
  | cons x t ih =>
    by_cases hx : p x = true
    · rw [List.find?_cons_of_pos _ hx] at h
      rw [List.cons_append, List.find?_cons_of_pos _ hx]
      exact h
    · rw [List.find?_cons_of_neg _ (by simpa using hx)] at h
      rw [List.cons_append, List.find?_cons_of_neg _ (by simpa using hx)]
      exact ih h

theorem alistGet_set_same {α : Type} (m : List (String × α)) (k : String) (v : α) :
    alistGet (alistSet m k v) k = some v := by
  unfold alistSet alistGet
  split
  · rename_i hs
    rw [find?_map_update_same]
    cases hf : m.find? (fun p => p.1 == k) with
    | none => rw [hf] at hs; simp at hs
    | some q => rfl
  · rename_i hs
    have hnone : m.find? (fun p => p.1 == k) = none := by
      cases hf : m.find? (fun p => p.1 == k) with
      | none => rfl
      | some q => rw [hf] at hs; simp at hs
    rw [find?_append_none _ _ _ hnone]
    rw [List.find?_cons_of_pos _ (by simp)]
    rfl

theorem alistGet_set_ne {α : Type} (m : List (String × α)) (k : String) (v : α)
    (k2 : String) (hne : ¬ k2 = k) :
    alistGet (alistSet m k v) k2 = alistGet m k2 := by
  unfold alistSet alistGet
  split
  · rw [find?_map_update_ne _ _ _ _ hne]
  · cases hf : m.find? (fun p => p.1 == k2) with
    | none =>
      rw [find?_append_none _ _ _ hf]
      rw [List.find?_cons_of_neg _ (by simp; intro hkk; exact hne hkk.symm)]
      rfl
    | some q =>
      rw [find?_append_some _ _ _ _ hf]

theorem alistSet_keys {α : Type} (m : List (String × α)) (k : String) (v : α) :
    (alistSet m k v).map (fun p => p.1) =
      (if (m.find? (fun p => p.1 == k)).isSome then m.map (fun p => p.1)
       else m.map (fun p => p.1) ++ [k]) := by
  unfold alistSet
  split
  · rw [List.map_map]
    apply List.map_congr_left
    intro p _
    by_cases hp : (p.1 == k) = true
    · have hpk : p.1 = k := by simpa using hp
      simp [hp, hpk]
    · have hpk2 : ¬ p.1 = k := by simpa using hp
      simp [hp, hpk2]
  · simp

theorem not_mem_keys_of_find?_none {α : Type} (m : List (String × α)) (k : String)
    (h : m.find? (fun p => p.1 == k) = none) : k ∉ m.map (fun p => p.1) := by
  intro hk
  obtain ⟨p, hpmem, hpk⟩ := List.mem_map.mp hk
  have := List.find?_eq_none.mp h p hpmem
  simp [hpk] at this

theorem alistGet_of_mem_nodup {α : Type} (m : List (String × α)) (p : String × α)
    (hnd : (m.map (fun q => q.1)).Nodup) (hm : p ∈ m) : alistGet m p.1 = some p.2 := by
  induction m with
  | nil => simp at hm
  | cons q t ih =>
    rcases List.mem_cons.mp hm with h | h
    · rw [h]
      unfold alistGet
      rw [List.find?_cons_of_pos _ (by simp)]
      rfl
    · by_cases hq : (q.1 == p.1) = true
      · exfalso
        have hq2 : q.1 = p.1 := by simpa using hq
        have hmemk : q.1 ∈ t.map (fun r => r.1) := by
          rw [hq2]
          exact List.mem_map.mpr ⟨p, h, rfl⟩
        rw [List.map_cons] at hnd
        exact (List.nodup_cons.mp hnd).1 hmemk
      · unfold alistGet
        rw [List.find?_cons_of_neg _ (by simpa using hq)]
        rw [List.map_cons] at hnd
        exact ih (List.nodup_cons.mp hnd).2 h

namespace Snapshot

/-- Whether a stored entry has the given tracker key. -/
def sameKey (k : String) (p : String × RefData) : Bool := entryKey p == k

/-- The counts map agrees with the number of stored entries per key. -/
def CountsOk (st : SnapState) : Prop :=
  ∀ k, (alistGet st.counts k).getD 0 = (st.refs.filter (sameKey k)).length

/-- The refsByKey map lists exactly the refs stored per key, in order. -/
def ByKeyOk (st : SnapState) : Prop :=
  ∀ k, (alistGet st.refsByKey k).getD [] = (st.refs.filter (sameKey k)).map (fun p => p.1)

/-- The refsByKey map has pairwise distinct keys (JS Map semantics). -/
def KeysNodup (st : SnapState) : Prop := (st.refsByKey.map (fun p => p.1)).Nodup

/-- Every stored entry carries as nth its 0-based ordinal among the
entries with the same (role, name) key that precede it. -/
def NthOk (refs : List (String × RefData)) : Prop :=
  ∀ (i : Nat) (h : i < refs.length),
    (refs.get ⟨i, h⟩).2.nth =
      some (((refs.take i).filter (sameKey (entryKey (refs.get ⟨i, h⟩)))).length)

/-- The traversal invariant of buildSnapshot. -/
def Inv (st : SnapState) : Prop := CountsOk st ∧ ByKeyOk st ∧ KeysNodup st ∧ NthOk st.refs

theorem inv_initState : Inv initState := by
  refine ⟨?_, ?_, ?_, ?_⟩
  · intro k
    rfl
  · intro k
    rfl
  · exact List.nodup_nil
  · intro i h
    exact absurd h (by simp [initState])

theorem assignRef_counts (st : SnapState) (nid : Nat) (role name : String) :
    (assignRef st nid role name).1.counts =
      alistSet st.counts (trackerKey role name)
        ((alistGet st.counts (trackerKey role name)).getD 0 + 1) := rfl

theorem assignRef_refsByKey (st : SnapState) (nid : Nat) (role name : String) :
    (assignRef st nid role name).1.refsByKey =
      alistSet st.refsByKey (trackerKey role name)
        ((alistGet st.refsByKey (trackerKey role name)).getD [] ++
         ["e" ++ toString (st.refCounter + 1)]) := rfl

/-- The entry that assignRef appends to the refs object. -/
def newEntry (st : SnapState) (role name : String) : String × RefData :=
  ("e" ++ toString (st.refCounter + 1),
   { selector := buildSelector role name, role := role,
     name := if name = "" then none else some name,
     nth := some ((alistGet st.counts (trackerKey role name)).getD 0) })

theorem assignRef_refs (st : SnapState) (nid : Nat) (role name : String) :
    (assignRef st nid role name).1.refs = st.refs ++ [newEntry st role name] := rfl

theorem entryKey_new (r sel role name : String) (c : Option Nat) :
    entryKey (r, { selector := sel, role := role,
                   name := if name = "" then none else some name, nth := c }) =
      trackerKey role name := by
  by_cases h : name = ""
  · simp [entryKey, trackerKey, h]
  · simp [entryKey, trackerKey, h]

theorem entryKey_newEntry (st : SnapState) (role name : String) :
    entryKey (newEntry st role name) = trackerKey role name :=
  entryKey_new _ _ _ _ _

theorem sameKey_newEntry (st : SnapState) (role name : String) :
    sameKey (trackerKey role name) (newEntry st role name) = true := by
  simp [sameKey, entryKey_newEntry]

theorem sameKey_newEntry_ne (st : SnapState) (role name k2 : String)
    (hk : ¬ k2 = trackerKey role name) :
    sameKey k2 (newEntry st role name) = false := by
  simp only [sameKey, entryKey_newEntry]
  simp only [beq_eq_false_iff_ne, ne_eq]
  intro hkk
  exact hk hkk.symm

theorem newEntry_fst (st : SnapState) (role name : String) :
    (newEntry st role name).1 = "e" ++ toString (st.refCounter + 1) := rfl

theorem newEntry_nth (st : SnapState) (role name : String) :
    (newEntry st role name).2.nth =
      some ((alistGet st.counts (trackerKey role name)).getD 0) := rfl

theorem nodup_append_singleton {α : Type} (l : List α) (a : α)
    (h1 : l.Nodup) (h2 : a ∉ l) : (l ++ [a]).Nodup := by
  rw [List.nodup_append]
  refine ⟨h1, List.nodup_singleton a, ?_⟩
  intro x hx
  simp only [List.mem_singleton]
  intro hxa
  rw [hxa] at hx
  exact h2 hx

theorem assignRef_inv (st : SnapState) (nid : Nat) (role name : String)
    (h : Inv st) : Inv (assignRef st nid role name).1 := by
  obtain ⟨hc, hb, hn, hnth⟩ := h
  refine ⟨?_, ?_, ?_, ?_⟩
  · intro k2
    rw [assignRef_counts, assignRef_refs, List.filter_append]
    by_cases hk : k2 = trackerKey role name
    · rw [hk, alistGet_set_same]
      simp [sameKey_newEntry, hc (trackerKey role name)]
    · rw [alistGet_set_ne _ _ _ _ hk]
      simp [sameKey_newEntry_ne st role name k2 hk, hc k2]
  · intro k2
    rw [assignRef_refsByKey, assignRef_refs, List.filter_append]
    by_cases hk : k2 = trackerKey role name
    · rw [hk, alistGet_set_same]
      simp [sameKey_newEntry, hb (trackerKey role name), newEntry_fst]
    · rw [alistGet_set_ne _ _ _ _ hk]
      simp [sameKey_newEntry_ne st role name k2 hk, hb k2]
  · unfold KeysNodup
    rw [assignRef_refsByKey, alistSet_keys]
    split
    · exact hn
    · rename_i hns
      apply nodup_append_singleton _ _ hn
      apply not_mem_keys_of_find?_none
      cases hf : st.refsByKey.find? (fun p => p.1 == trackerKey role name) with
      | none => rfl
      | some q => rw [hf] at hns; simp at hns
  · have hshow : (assignRef st nid role name).1.refs = st.refs ++ [newEntry st role name] :=
      assignRef_refs st nid role name
    rw [hshow]
    intro i hi
    by_cases hilt : i < st.refs.length
    · have hget : (st.refs ++ [newEntry st role name]).get ⟨i, hi⟩ =
          st.refs.get ⟨i, hilt⟩ := List.get_append i hilt
      rw [hget, List.take_append_of_le_length (Nat.le_of_lt hilt)]
      exact hnth i hilt
    · have hieq : i = st.refs.length := by
        simp only [List.length_append, List.length_cons, List.length_nil] at hi
        omega
      have hget : (st.refs ++ [newEntry st role name]).get ⟨i, hi⟩ =
          newEntry st role name := by
        subst hieq
        have h1 := List.get?_concat_length st.refs (newEntry st role name)
        have h2 := List.get?_eq_get (l := st.refs ++ [newEntry st role name])
          (n := st.refs.length) hi
        rw [h1] at h2
        injection h2 with h3
        exact h3.symm
      rw [hget, hieq, List.take_left, newEntry_nth, entryKey_newEntry,
          hc (trackerKey role name)]

end Snapshot

namespace Snapshot

theorem emitNode_inv (nid : Nat) (role name extra : String) (depth : Nat)
    (st : SnapState) (h : Inv st) : Inv (emitNode nid role name extra depth st) := by
  simp only [emitNode]
  split
  · exact assignRef_inv st nid role name h
  · exact h

mutual

theorem processNode_inv (opts : SnapOptions) (node : DomNode) (depth : Nat)
    (st : SnapState) (h : Inv st) : Inv (processNode opts node depth st) := by
  match node with
  | DomNode.mk nid role name visible extra children =>
    rw [processNode]
    split
    · exact h
    · split
      · exact h
      · split
        · exact processNodes_inv opts children depth st h
        · split
          · exact processNodes_inv opts children depth st h
          · exact processNodes_inv opts children (depth + 1) _
              (emitNode_inv nid role name extra depth st h)

theorem processNodes_inv (opts : SnapOptions) (l : List DomNode) (depth : Nat)
    (st : SnapState) (h : Inv st) : Inv (processNodes opts l depth st) := by
  match l with
  | [] => exact h
  | x :: xs =>
    rw [processNodes]
    exact processNodes_inv opts xs depth _ (processNode_inv opts x depth st h)

end

theorem entryKey_dropNth (dup : List String) (p : String × RefData) :
    entryKey (dropNth dup p) = entryKey p := by
  unfold dropNth
  split
  · rfl
  · rfl

theorem sameKey_dropNth (dup : List String) (k : String) (p : String × RefData) :
    sameKey k (dropNth dup p) = sameKey k p := by
  simp [sameKey, entryKey_dropNth]

theorem filter_map_dropNth (dup : List String) (k : String)
    (l : List (String × RefData)) :
    ((l.map (dropNth dup)).filter (sameKey k)).length =
      (l.filter (sameKey k)).length := by
  induction l with
  | nil => rfl
  | cons p t ih =>
    simp only [List.map_cons, List.filter_cons, sameKey_dropNth]
    by_cases h : sameKey k p = true
    · simp [h, ih]
    · simp [h, ih]

theorem dupKeys_iff (st : SnapState) (h : Inv st) (k : String) :
    (dupKeys st).contains k = true ↔ 2 ≤ (st.refs.filter (sameKey k)).length := by
  obtain ⟨hc, hb, hn, -⟩ := h
  constructor
  · intro hmem
    have hk : k ∈ dupKeys st := List.mem_of_elem_eq_true hmem
    obtain ⟨p, hpf, hpk⟩ := List.mem_map.mp hk
    have hpmem : p ∈ st.refsByKey := List.mem_of_mem_filter hpf
    have hplen : 1 < p.2.length := by
      have := List.of_mem_filter hpf
      simpa using this
    have hget : alistGet st.refsByKey p.1 = some p.2 :=
      alistGet_of_mem_nodup _ _ hn hpmem
    have hbk := hb p.1
    rw [hget] at hbk
    simp only [Option.getD_some] at hbk
    have hlen : p.2.length = ((st.refs.filter (sameKey p.1)).map (fun q => q.1)).length :=
      congrArg List.length hbk
    rw [List.length_map] at hlen
    rw [hpk] at hlen
    omega
  · intro hlen
    have hbk := hb k
    cases hget : alistGet st.refsByKey k with
    | none =>
      rw [hget] at hbk
      simp only [Option.getD_none] at hbk
      have : (st.refs.filter (sameKey k)).length = 0 := by
        have := congrArg List.length hbk
        simp only [List.length_nil, List.length_map] at this
        omega
      omega
    | some l2 =>
      rw [hget] at hbk
      simp only [Option.getD_some] at hbk
      have hl2 : 1 < l2.length := by
        have := congrArg List.length hbk
        rw [List.length_map] at this
        omega
      unfold alistGet at hget
      cases hf : st.refsByKey.find? (fun p => p.1 == k) with
      | none => rw [hf] at hget; simp at hget
      | some q =>
        rw [hf] at hget
        have hq2 : q.2 = l2 := by
          have : some q.2 = some l2 := hget
          injection this
        have hqk : q.1 = k := by
          have := List.find?_some hf
          simpa using this
        have hqmem : q ∈ st.refsByKey := List.mem_of_find?_eq_some hf
        apply List.elem_eq_true_of_mem
        unfold dupKeys
        apply List.mem_map.mpr
        refine ⟨q, ?_, hqk⟩
        apply List.mem_filter.mpr
        refine ⟨hqmem, ?_⟩
        rw [hq2]
        simpa using hl2

end Snapshot

namespace Snapshot

theorem nth_spec_of_inv (st : SnapState) (hinv : Inv st) (i : Nat)
    (h : i < (st.refs.map (dropNth (dupKeys st))).length) :
    (((st.refs.map (dropNth (dupKeys st))).get ⟨i, h⟩).2).nth =
      (if 2 ≤ ((st.refs.map (dropNth (dupKeys st))).filter
           (sameKey (entryKey ((st.refs.map (dropNth (dupKeys st))).get ⟨i, h⟩)))).length
       then some ((((st.refs.map (dropNth (dupKeys st))).take i).filter
           (sameKey (entryKey ((st.refs.map (dropNth (dupKeys st))).get ⟨i, h⟩)))).length)
       else none) := by
  have hnth := hinv.2.2.2
  have hi2 : i < st.refs.length := by
    rw [List.length_map] at h
    exact h
  have hget : (st.refs.map (dropNth (dupKeys st))).get ⟨i, h⟩ =
      dropNth (dupKeys st) (st.refs.get ⟨i, hi2⟩) := List.get_map _
  rw [hget, entryKey_dropNth]
  rw [filter_map_dropNth]
  have htake : (st.refs.map (dropNth (dupKeys st))).take i =
      (st.refs.take i).map (dropNth (dupKeys st)) := (List.map_take _ _ _).symm
  rw [htake, filter_map_dropNth]
  by_cases hdup : (dupKeys st).contains
      (entryKey (st.refs.get ⟨i, hi2⟩)) = true
  · have heq : dropNth (dupKeys st) (st.refs.get ⟨i, hi2⟩) = st.refs.get ⟨i, hi2⟩ := by
      unfold dropNth
      rw [if_pos hdup]
    rw [heq]
    rw [if_pos ((dupKeys_iff st hinv _).mp hdup)]
    exact hnth i hi2
  · have heq : dropNth (dupKeys st) (st.refs.get ⟨i, hi2⟩) =
        ((st.refs.get ⟨i, hi2⟩).1, { (st.refs.get ⟨i, hi2⟩).2 with nth := none }) := by
      unfold dropNth
      rw [if_neg hdup]
    rw [heq]
    rw [if_neg (fun hcontra => hdup ((dupKeys_iff st hinv _).mpr hcontra))]

/-- C6: in the refs object of a snapshot, every entry whose (role,
name) key occurs at least twice carries as nth its 0-based ordinal
among the same-key entries assigned before it, and every entry whose
key occurs exactly once carries no nth at all — so two same-key nodes
get nth 0 and 1 while a lone node never shows nth. -/
theorem snapshot_nth_ordinal_spec (root : DomNode) (opts : SnapOptions)
    (i : Nat) (h : i < (buildSnapshot root opts).refs.length) :
    (((buildSnapshot root opts).refs.get ⟨i, h⟩).2).nth =
      (if 2 ≤ ((buildSnapshot root opts).refs.filter
           (sameKey (entryKey ((buildSnapshot root opts).refs.get ⟨i, h⟩)))).length
       then some ((((buildSnapshot root opts).refs.take i).filter
           (sameKey (entryKey ((buildSnapshot root opts).refs.get ⟨i, h⟩)))).length)
       else none) := by
  have hinv : Inv (processNode opts root 0 initState) :=
    processNode_inv opts root 0 initState inv_initState
  by_cases hemp : (processNode opts root 0 initState).lines.isEmpty
  · exfalso
    have hrefs : (buildSnapshot root opts).refs = [] := by
      simp [buildSnapshot, hemp]
    rw [hrefs] at h
    simp at h
  · have hrefs : (buildSnapshot root opts).refs =
        (processNode opts root 0 initState).refs.map
          (dropNth (dupKeys (processNode opts root 0 initState))) := by
      simp [buildSnapshot, hemp]
    revert h
    rw [hrefs]
    intro h
    exact nth_spec_of_inv (processNode opts root 0 initState) hinv i h

/-- Concrete instantiation of `snapshot_nth_ordinal_spec` on a body
with two buttons named OK and one uniquely named heading: the buttons
carry nth 0 and nth 1, the heading carries no nth. -/
theorem snapshot_nth_ordinal_spec_witness :
    let root := DomNode.mk 0 "generic" "" true ""
      [DomNode.mk 1 "button" "OK" true "" [],
       DomNode.mk 2 "button" "OK" true "" [],
       DomNode.mk 3 "heading" "T" true "" []]
    (((buildSnapshot root defaultOpts).refs.get ⟨0, by decide⟩).2).nth = some 0 ∧
    (((buildSnapshot root defaultOpts).refs.get ⟨1, by decide⟩).2).nth = some 1 ∧
    (((buildSnapshot root defaultOpts).refs.get ⟨2, by decide⟩).2).nth = none := by
  intro root
  refine ⟨?_, ?_, ?_⟩
  · have h := snapshot_nth_ordinal_spec root defaultOpts 0 (by decide)
    rw [h]
    decide
  · have h := snapshot_nth_ordinal_spec root defaultOpts 1 (by decide)
    rw [h]
    decide
  · have h := snapshot_nth_ordinal_spec root defaultOpts 2 (by decide)
    rw [h]
    decide

end Snapshot
